import Mathlib

/-!
Verification of the reconciliation engine of src/main.py (Tg2TelDrive).

The Python program keeps a persistent mapping from TelDrive file ids to
Telegram channel message ids, polls TelDrive snapshots, and reconciles
drift (renames/moves vs genuine deletions) with a confirm-cycle state
machine before deleting channel messages.

This file is a shallow embedding of that code:
* Python dicts (which preserve insertion order, update keys in place and
  have unique keys) are modelled as association lists with the helpers
  dget / dset / dpop / dmem / dkeys below;
* the persisted mapping file is modelled at the JSON-value level
  (the text serialisation performed by the json standard library is
  external library code, modelled as the identity on JSON values);
* network effects are parameters: the TelDrive listing is a function
  from paths to item lists, the channel is a list of messages, the
  outcome of the bulk delete call is a boolean, the database is a
  mapping.
-/

set_option linter.unusedVariables false

namespace Tg2TelDrive

/-! ### Python dict model

An insertion-ordered association list with unique keys.  The operations
mirror CPython dict semantics: assignment updates an existing key in
place (keeping its position) and otherwise appends at the end; pop
removes the key; lookup returns the first (unique) occurrence. -/

/-- Lookup: Python d.get(k) / d[k]. -/
def dget {α : Type} (d : List (String × α)) (k : String) : Option α :=
  match d with
  | [] => none
  | p :: rest => if p.1 = k then some p.2 else dget rest k

/-- Assignment: Python d[k] = v (in-place update or append). -/
def dset {α : Type} (d : List (String × α)) (k : String) (v : α) :
    List (String × α) :=
  match d with
  | [] => [(k, v)]
  | p :: rest => if p.1 = k then (k, v) :: rest else p :: dset rest k v

/-- Removal: Python d.pop(k, default) (the mapping part; removes the key). -/
def dpop {α : Type} (d : List (String × α)) (k : String) :
    List (String × α) :=
  match d with
  | [] => []
  | p :: rest => if p.1 = k then rest else p :: dpop rest k

/-- Membership: Python (k in d). -/
def dmem {α : Type} (d : List (String × α)) (k : String) : Bool :=
  match d with
  | [] => false
  | p :: rest => if p.1 = k then true else dmem rest k

/-- Key list: Python list(d.keys()). -/
def dkeys {α : Type} (d : List (String × α)) : List String :=
  d.map (fun p => p.1)

/-! ### Chunk classifier (src/main.py lines 76-88)

Names are modelled as Lean strings; the digit class of the Python regex
(backslash-d without the re.ASCII flag) is modelled as the ASCII digits
'0'-'9' via Char.isDigit.  (Python's class additionally accepts other
Unicode decimal digits; no claim in this development depends on a
non-ASCII digit.) -/

/-- Python: bool(re.search(r'\.\d+$', name)) — the name ends with a dot
followed by one or more digits. -/
def _is_chunk_file (name : String) : Bool :=
  !(name.data.reverse.takeWhile Char.isDigit).isEmpty &&
    ((name.data.reverse.dropWhile Char.isDigit).head? == some '.')

/-- Python: re.sub(r'\.\d+$', '', name) — strip the final dot-digits
suffix when present (the match of that regex is unique: its dot is the
only dot followed exclusively by digits). -/
def _get_base_name (name : String) : String :=
  if _is_chunk_file name then
    String.mk ((name.data.reverse.dropWhile Char.isDigit).tail.reverse)
  else name

/-- Python: bool(re.fullmatch(r'[0-9a-f]{32}', name)) — exactly 32
lowercase hex characters. -/
def _is_md5_name (name : String) : Bool :=
  name.data.length == 32 &&
    name.data.all (fun c => c.isDigit || ('a' ≤ c && c ≤ 'f'))

/-! ### Mapping store (src/main.py lines 54-73)

The persisted file file_msg_map.json is modelled at the JSON-value
level: the byte serialisation json.dumps / json.loads is standard
library code external to this repository, and on JSON values built from
string keys and integer lists it is faithful (dumps emits the dict's
pairs in insertion order; loads rebuilds exactly the parsed structure,
later duplicate object keys overwriting earlier ones). -/

/-- A JSON value as produced by json.loads. -/
inductive Json where
  | null : Json
  | bool (b : Bool) : Json
  | num (n : Int) : Json
  | str (s : String) : Json
  | arr (elems : List Json) : Json
  | obj (fields : List (String × Json)) : Json

/-- The local mapping file_id to message ids: dict[str, list[int]]. -/
abbrev Mapping := List (String × List Int)

/-- Serialise one message-id list. -/
def encodeMsgIds (ids : List Int) : Json :=
  Json.arr (ids.map Json.num)

/-- Serialise a mapping as json.dumps does: an object listing the
dict's pairs in insertion order. -/
def encodeMapping (m : Mapping) : Json :=
  Json.obj (m.map (fun p => (p.1, encodeMsgIds p.2)))

/-- Read a list of JSON integers. -/
def decodeNums : List Json → Option (List Int)
  | [] => some []
  | Json.num n :: rest => (decodeNums rest).map (fun l => n :: l)
  | _ => none

/-- Read one message-id list. -/
def decodeMsgIds : Json → Option (List Int)
  | Json.arr xs => decodeNums xs
  | _ => none

/-- Read the pairs of a JSON object as mapping entries. -/
def decodeFields : List (String × Json) → Option (List (String × List Int))
  | [] => some []
  | (k, v) :: rest =>
    match decodeMsgIds v with
    | some ids => (decodeFields rest).map (fun l => (k, ids) :: l)
    | none => none

/-- Build a dict from key/value pairs in order (json.loads object
construction: successive assignment, later duplicates overwrite). -/
def dictify (ps : List (String × List Int)) : Mapping :=
  ps.foldl (fun d p => dset d p.1 p.2) []

/-- Read a whole mapping from a JSON value. -/
def decodeMapping : Json → Option Mapping
  | Json.obj fields => (decodeFields fields).map dictify
  | _ => none

/-- State of the persisted mapping file: missing, present but rejected
by json.loads, or present and parsed as a JSON value. -/
inductive FileState where
  | absent : FileState
  | unparseable : FileState
  | parsed (j : Json) : FileState

/-- src/main.py lines 58-65.  If the file exists, try to parse it; any
exception is swallowed and the empty mapping is returned; a missing
file also yields the empty mapping.  (When the file parses to JSON that
is not a string-to-int-list object the Python function returns that raw
value, which no claim exercises; the model returns the empty mapping
there.) -/
def _load_mapping : FileState → Mapping
  | FileState.absent => []
  | FileState.unparseable => []
  | FileState.parsed j => (decodeMapping j).getD []

/-- src/main.py lines 68-73: write json.dumps(mapping) to the file. -/
def _save_mapping (m : Mapping) : FileState :=
  FileState.parsed (encodeMapping m)

/-! ### Index snapshot reader (src/main.py lines 215-271)

get_teldrive_files walks the TelDrive directory tree with an explicit
stack, accumulating every non-folder item that has a nonempty id into
the result dict.  The network side is a parameter: svc maps a directory
path to the item list that _list_teldrive_dir returns for it (that
helper paginates and, on a page failure, returns the partial list — all
absorbed into svc).  The Python while-loop has no bound; the model adds
explicit fuel (one unit per scanned directory), enough fuel reproduces
any terminating run. -/

/-- The name/size record stored per file id in a snapshot. -/
structure FInfo where
  name : String
  size : Int
deriving DecidableEq, Repr

/-- A point-in-time TelDrive listing: dict file_id to name/size. -/
abbrev Snapshot := List (String × FInfo)

/-- One item of a directory listing as returned by the TelDrive API. -/
structure TEntry where
  id : String
  name : String
  size : Int
  type : String
deriving DecidableEq, Repr

/-- Python current_path.rstrip("/"): drop all trailing slashes. -/
def rstripSlashes (s : String) : String :=
  String.mk (s.data.reverse.dropWhile (fun c => c = '/')).reverse

/-- Record one non-folder item into the result dict when its id is
nonempty (the elif item_id branch of src/main.py line 268), else skip. -/
def registerItem (r : Snapshot) (it : TEntry) : Snapshot :=
  if it.id ≠ "" then dset r it.id { name := it.name, size := it.size } else r

/-- Process the items of one directory: collect sub-directory paths (in
item order, appended to the scan stack) and record non-folder items
with nonempty id into the result dict. -/
def gtfStep (currentPath : String) (items : List TEntry)
    (result : Snapshot) : List String × Snapshot :=
  items.foldl
    (fun acc item =>
      if item.type = "folder" then
        (acc.1 ++ [rstripSlashes currentPath ++ "/" ++ item.name], acc.2)
      else (acc.1, registerItem acc.2 item))
    ([], result)

/-- The directory-stack loop.  The stack is kept top-first (Python
appends at the end and pops from the end, so freshly discovered
sub-directories, reversed, go on top). -/
def gtfGo (svc : String → List TEntry) : Nat → List String → Snapshot → Snapshot
  | 0, _, result => result
  | _ + 1, [], result => result
  | fuel + 1, d :: rest, result =>
    let step := gtfStep d (svc d) result
    gtfGo svc fuel (step.1.reverse ++ rest) step.2

/-- src/main.py lines 249-271: scan from the root directory. -/
def get_teldrive_files (svc : String → List TEntry) (fuel : Nat) : Snapshot :=
  gtfGo svc fuel ["/"] []

/-! ### Deletion-sync cycle (src/main.py lines 403-529)

One iteration of the while-loop of sync_deletions, split into the four
stages of the body so that theorems can speak about intermediate
values: processing of freshly disappeared ids, the pending-queue check
(counting), the confirmed-deletion cleanup, and the new-id database
sync.  The persisted mapping file is carried as the well-typed mapping
it contains (justified by the save/load round-trip proved above — this
process is the file's only writer).  CPython iterates sets in
unspecified order; the model fixes the order in which disappeared and
new ids are visited to the originating dict's insertion order. -/

/-- A channel message as seen through extract_file_info: its id and the
extracted file name (none when the message has no file or extraction
raises). -/
structure Msg where
  id : Int
  name : Option String
deriving DecidableEq, Repr

/-- src/main.py lines 91-111: collect the ids of channel messages whose
extracted name is a chunk of one of the given base names. -/
def _find_chunk_messages (channel : List Msg) (base_names : List String) :
    List Int :=
  (channel.filter (fun m =>
    match m.name with
    | some n => _is_chunk_file n && base_names.contains (_get_base_name n)
    | none => false)).map (fun m => m.id)

/-- One record of the pending-deletion queue:
pending_deletions[fid] = dict with name, msg_ids, count. -/
structure PendInfo where
  name : String
  msg_ids : List Int
  count : Nat
deriving DecidableEq, Repr

/-- The pending-deletion queue: dict file_id to record. -/
abbrev Pending := List (String × PendInfo)

/-- The names present in a snapshot:
set(info["name"] for info in curr_files.values()). -/
def snapshotNames (curr : Snapshot) : List String :=
  curr.map (fun p => p.2.name)

/-- disappeared_ids = prev_ids - curr_ids (src/main.py line 422). -/
def disappeared_ids (prev curr : Snapshot) : List String :=
  (dkeys prev).filter (fun k => !(dmem curr k))

/-- new_ids = curr_ids - prev_ids (src/main.py line 423). -/
def new_ids (prev curr : Snapshot) : List String :=
  (dkeys curr).filter (fun k => !(dmem prev k))

/-- The dict comprehension of src/main.py lines 437-438:
name to id over the current snapshot restricted to newly-appeared ids
(later duplicates overwrite earlier ones). -/
def new_name_to_id (curr : Snapshot) (nids : List String) :
    List (String × String) :=
  curr.foldl
    (fun acc p => if nids.contains p.1 then dset acc p.2.name p.1 else acc) []

/-- In-flight state of one cycle body between its save points. -/
structure MidState where
  mapping : Mapping
  pending : Pending
  disk : Mapping
deriving DecidableEq, Repr

/-- src/main.py lines 432-454: handle one freshly disappeared id.  If
its previous name is (truthy and) still among the current names, pop
the mapping entry, re-insert it when the name belongs to a
newly-appeared id, and save; otherwise, unless already queued or an
md5-format name, enqueue a pending-deletion record with count 1. -/
def processDisappearedId (prev curr : Snapshot) (nids : List String)
    (st : MidState) (fid : String) : MidState :=
  let old_name := ((dget prev fid).map FInfo.name).getD ""
  if old_name ≠ "" ∧ old_name ∈ snapshotNames curr then
    let n2i := new_name_to_id curr nids
    let old_msgs := (dget st.mapping fid).getD []
    let m1 := dpop st.mapping fid
    let m2 :=
      match dget n2i old_name with
      | some new_fid => dset m1 new_fid old_msgs
      | none => m1
    { mapping := m2, pending := st.pending, disk := m2 }
  else if dmem st.pending fid = false then
    if _is_md5_name old_name then st
    else
      { st with
        pending := dset st.pending fid
          { name := old_name, msg_ids := (dget st.mapping fid).getD [],
            count := 1 } }
  else st

/-- The whole disappeared-id block of one cycle. -/
def disappearedStage (prev curr : Snapshot) (st : MidState) : MidState :=
  (disappeared_ids prev curr).foldl
    (processDisappearedId prev curr (new_ids prev curr)) st

/-- State during the pending-queue check, plus the confirmed list. -/
structure CheckState where
  mapping : Mapping
  pending : Pending
  disk : Mapping
  confirmed : List String
deriving DecidableEq, Repr

/-- src/main.py lines 458-479: one pending record.  If its name is back
in the snapshot, cancel: migrate the stored message ids to the first
current id bearing that name that has no mapping entry, drop the
pending record and the old mapping entry, save.  Otherwise increment
the counter; at the threshold the id joins confirmed_fids. -/
def checkOnePending (curr : Snapshot) (threshold : Nat) (st : CheckState)
    (item : String × PendInfo) : CheckState :=
  let fid := item.1
  let info := item.2
  if info.name ∈ snapshotNames curr then
    let m1 :=
      match curr.find? (fun p => p.2.name == info.name && !(dmem st.mapping p.1)) with
      | some q => dset st.mapping q.1 info.msg_ids
      | none => st.mapping
    let m2 := dpop m1 fid
    { mapping := m2, pending := dpop st.pending fid, disk := m2,
      confirmed := st.confirmed }
  else
    let newCount := info.count + 1
    let pend := dset st.pending fid { info with count := newCount }
    if threshold ≤ newCount then
      { st with pending := pend, confirmed := st.confirmed ++ [fid] }
    else
      { st with pending := pend }

/-- The whole pending-queue check of one cycle: the loop iterates over
list(pending_deletions.items()), the snapshot of the queue as it stands
after the disappeared-id block. -/
def countStage (curr : Snapshot) (threshold : Nat) (st : MidState) :
    CheckState :=
  st.pending.foldl (checkOnePending curr threshold)
    { mapping := st.mapping, pending := st.pending, disk := st.disk,
      confirmed := [] }

/-- Accumulator of the confirmed-deletion pop loop
(src/main.py lines 483-489). -/
structure PopAcc where
  msg_ids : List Int
  base_names : List String
  pending : Pending
  mapping : Mapping
deriving DecidableEq, Repr

/-- src/main.py lines 485-489: pop each confirmed fid from the pending
queue, collect its stored message ids and base name, and drop its
mapping entry.  (The Python pending_deletions.pop(fid) cannot raise:
every confirmed fid was just seen in the queue; the model supplies an
inert default.) -/
def popConfirmed (confirmed : List String) (acc0 : PopAcc) : PopAcc :=
  confirmed.foldl
    (fun acc fid =>
      let info := (dget acc.pending fid).getD
        { name := "", msg_ids := [], count := 0 }
      { msg_ids := acc.msg_ids ++ info.msg_ids,
        base_names := acc.base_names ++ [info.name],
        pending := dpop acc.pending fid,
        mapping := dpop acc.mapping fid })
    acc0

/-- Result of the cleanup block: the state it leaves behind and the
message-id list handed to client.delete_messages (empty when no call
was issued). -/
structure CleanupResult where
  mapping : Mapping
  pending : Pending
  disk : Mapping
  to_delete : List Int
deriving DecidableEq, Repr

/-- src/main.py lines 481-506: when there are confirmed fids, pop them,
scan the channel for chunk messages of their base names, issue one bulk
delete for the collected ids, and save the mapping.  A delete failure
is caught by the except clause and only logged: delete_ok (whether the
call succeeds) influences nothing that follows. -/
def cleanupStage (channel : List Msg) (delete_ok : Bool) (st : CheckState) :
    CleanupResult :=
  if st.confirmed.isEmpty then
    { mapping := st.mapping, pending := st.pending, disk := st.disk,
      to_delete := [] }
  else
    let acc := popConfirmed st.confirmed
      { msg_ids := [], base_names := [], pending := st.pending,
        mapping := st.mapping }
    let chunk_ids :=
      if acc.base_names.isEmpty then []
      else _find_chunk_messages channel acc.base_names
    let ids := acc.msg_ids ++ chunk_ids
    { mapping := acc.mapping, pending := acc.pending, disk := acc.mapping,
      to_delete := ids }

/-- src/main.py lines 508-526: for newly appeared ids, reload the
mapping from disk and fill entries from the database mapping when
enabled; save only when something was updated. -/
def dbSyncStage (nids : List String) (db_enabled : Bool)
    (db_mapping : Mapping) (disk : Mapping) : Mapping :=
  if nids.isEmpty then disk
  else
    let mapping := disk
    let unmapped := nids.filter (fun fid => !(dmem mapping fid))
    if !unmapped.isEmpty && db_enabled then
      let res := unmapped.foldl
        (fun acc fid =>
          match dget db_mapping fid with
          | some ids => (dset acc.1 fid ids, acc.2 + 1)
          | none => acc)
        (mapping, (0 : Nat))
      if 0 < res.2 then res.1 else disk
    else disk

/-- The sync loop's state between cycles: the previous snapshot, the
pending-deletion queue and the persisted mapping file. -/
structure SyncState where
  prev_files : Snapshot
  pending : Pending
  disk : Mapping
deriving DecidableEq, Repr

/-- Everything one cycle obtains from the outside world: the fresh
snapshot, the channel messages the chunk scan would see, whether the
bulk delete call succeeds, and the database view. -/
structure CycleInput where
  curr_files : Snapshot
  channel : List Msg
  delete_ok : Bool
  db_enabled : Bool
  db_mapping : Mapping
deriving DecidableEq, Repr

/-- What one cycle produces: the next state, the confirmed fids of this
cycle and the ids handed to the bulk delete. -/
structure CycleResult where
  state : SyncState
  confirmed : List String
  to_delete : List Int
deriving DecidableEq, Repr

/-- The first two stages of a cycle (mapping reloaded from disk at the
start, as the code does). -/
def cycleCheck (threshold : Nat) (st : SyncState) (curr : Snapshot) :
    CheckState :=
  countStage curr threshold
    (disappearedStage st.prev_files curr
      { mapping := st.disk, pending := st.pending, disk := st.disk })

/-- One full iteration of the sync_deletions while-loop
(src/main.py lines 416-529). -/
def sync_deletions_cycle (threshold : Nat) (st : SyncState)
    (inp : CycleInput) : CycleResult :=
  let chk := cycleCheck threshold st inp.curr_files
  let cl := cleanupStage inp.channel inp.delete_ok chk
  let disk2 := dbSyncStage (new_ids st.prev_files inp.curr_files)
    inp.db_enabled inp.db_mapping cl.disk
  { state :=
      { prev_files := inp.curr_files, pending := cl.pending, disk := disk2 },
    confirmed := chk.confirmed,
    to_delete := cl.to_delete }

/-- Run several cycles, returning each cycle's result. -/
def cycleOutputs (threshold : Nat) : SyncState → List CycleInput → List CycleResult
  | _, [] => []
  | st, inp :: rest =>
    let r := sync_deletions_cycle threshold st inp
    r :: cycleOutputs threshold r.state rest

/-! ### General lemmas -/

@[simp] theorem dget_nil {α : Type} (k : String) :
    dget ([] : List (String × α)) k = none := rfl

@[simp] theorem dget_cons {α : Type} (p : String × α) (d : List (String × α))
    (k : String) :
    dget (p :: d) k = if p.1 = k then some p.2 else dget d k := rfl

@[simp] theorem dset_nil {α : Type} (k : String) (v : α) :
    dset ([] : List (String × α)) k v = [(k, v)] := rfl

@[simp] theorem dset_cons {α : Type} (p : String × α) (d : List (String × α))
    (k : String) (v : α) :
    dset (p :: d) k v = if p.1 = k then (k, v) :: d else p :: dset d k v := rfl

@[simp] theorem dpop_nil {α : Type} (k : String) :
    dpop ([] : List (String × α)) k = [] := rfl

@[simp] theorem dpop_cons {α : Type} (p : String × α) (d : List (String × α))
    (k : String) :
    dpop (p :: d) k = if p.1 = k then d else p :: dpop d k := rfl

@[simp] theorem dmem_nil {α : Type} (k : String) :
    dmem ([] : List (String × α)) k = false := rfl

@[simp] theorem dmem_cons {α : Type} (p : String × α) (d : List (String × α))
    (k : String) :
    dmem (p :: d) k = if p.1 = k then true else dmem d k := rfl

@[simp] theorem dkeys_nil {α : Type} :
    dkeys ([] : List (String × α)) = [] := rfl

@[simp] theorem dkeys_cons {α : Type} (p : String × α) (d : List (String × α)) :
    dkeys (p :: d) = p.1 :: dkeys d := rfl

theorem dmem_eq_isSome_dget {α : Type} (d : List (String × α)) (k : String) :
    dmem d k = (dget d k).isSome := by
  induction d with
  | nil => rfl
  | cons p rest ih => by_cases h : p.1 = k <;> simp [h, ih]

theorem dmem_iff_mem_dkeys {α : Type} (d : List (String × α)) (k : String) :
    dmem d k = true ↔ k ∈ dkeys d := by
  induction d with
  | nil => simp
  | cons p rest ih =>
    by_cases h : p.1 = k
    · simp [h]
    · simp only [dmem_cons, if_neg h, dkeys_cons, List.mem_cons]
      rw [ih]
      constructor
      · exact fun hm => Or.inr hm
      · rintro (he | hm)
        · exact absurd he.symm h
        · exact hm

theorem dget_dset_self {α : Type} (d : List (String × α)) (k : String) (v : α) :
    dget (dset d k v) k = some v := by
  induction d with
  | nil => simp
  | cons p rest ih => by_cases h : p.1 = k <;> simp [h, ih]

theorem dget_dset_ne {α : Type} (d : List (String × α)) (k k' : String) (v : α)
    (h : k ≠ k') : dget (dset d k v) k' = dget d k' := by
  induction d with
  | nil => simp [h]
  | cons p rest ih =>
    by_cases hp : p.1 = k
    · subst hp
      simp [h, Ne.symm h]
    · simp [hp, ih]

theorem dget_dpop_ne {α : Type} (d : List (String × α)) (k k' : String)
    (h : k ≠ k') : dget (dpop d k) k' = dget d k' := by
  induction d with
  | nil => simp
  | cons p rest ih =>
    by_cases hp : p.1 = k
    · subst hp
      simp [h]
    · simp [hp, ih]

theorem dmem_dpop_self {α : Type} (d : List (String × α)) (k : String)
    (h : (dkeys d).Nodup) : dmem (dpop d k) k = false := by
  induction d with
  | nil => rfl
  | cons p rest ih =>
    simp only [dkeys_cons, List.nodup_cons] at h
    by_cases hp : p.1 = k
    · simp only [dpop_cons, if_pos hp]
      rw [← Bool.not_eq_true, dmem_iff_mem_dkeys]
      exact fun hm => h.1 (hp ▸ hm)
    · simp [hp, ih h.2]

theorem dmem_dpop_of_not_dmem {α : Type} (d : List (String × α)) (k k' : String)
    (h : dmem d k' = false) : dmem (dpop d k) k' = false := by
  induction d with
  | nil => rfl
  | cons p rest ih =>
    simp only [dmem_cons] at h
    by_cases hp : p.1 = k'
    · simp [hp] at h
    · simp only [if_neg hp] at h
      by_cases hq : p.1 = k <;> simp [hq, hp, h, ih h]

theorem dkeys_dset_of_dmem {α : Type} (d : List (String × α)) (k : String)
    (v : α) (h : dmem d k = true) : dkeys (dset d k v) = dkeys d := by
  induction d with
  | nil => simp at h
  | cons p rest ih =>
    simp only [dmem_cons] at h
    by_cases hp : p.1 = k
    · simp [hp]
    · simp only [if_neg hp] at h
      simp [hp, ih h]

theorem dkeys_dset_of_not_dmem {α : Type} (d : List (String × α)) (k : String)
    (v : α) (h : dmem d k = false) : dkeys (dset d k v) = dkeys d ++ [k] := by
  induction d with
  | nil => simp
  | cons p rest ih =>
    simp only [dmem_cons] at h
    by_cases hp : p.1 = k
    · simp [hp] at h
    · simp only [if_neg hp] at h
      simp [hp, ih h]

theorem nodup_dkeys_dset {α : Type} (d : List (String × α)) (k : String) (v : α)
    (h : (dkeys d).Nodup) : (dkeys (dset d k v)).Nodup := by
  cases hm : dmem d k
  · rw [dkeys_dset_of_not_dmem d k v hm]
    refine List.Nodup.append h (List.nodup_singleton k) ?_
    intro a ha hb
    rw [List.mem_singleton] at hb
    subst hb
    rw [← dmem_iff_mem_dkeys] at ha
    rw [ha] at hm
    simp at hm
  · rw [dkeys_dset_of_dmem d k v hm]
    exact h

theorem sublist_dkeys_dpop {α : Type} (d : List (String × α)) (k : String) :
    (dkeys (dpop d k)).Sublist (dkeys d) := by
  induction d with
  | nil => simp
  | cons p rest ih =>
    by_cases hp : p.1 = k
    · simp only [dpop_cons, if_pos hp, dkeys_cons]
      exact List.sublist_cons_self _ _
    · simp only [dpop_cons, if_neg hp, dkeys_cons]
      exact List.Sublist.cons₂ _ ih

theorem nodup_dkeys_dpop {α : Type} (d : List (String × α)) (k : String)
    (h : (dkeys d).Nodup) : (dkeys (dpop d k)).Nodup :=
  (sublist_dkeys_dpop d k).nodup h

theorem dset_eq_append_of_not_dmem {α : Type} (d : List (String × α))
    (k : String) (v : α) (h : dmem d k = false) :
    dset d k v = d ++ [(k, v)] := by
  induction d with
  | nil => simp
  | cons p rest ih =>
    simp only [dmem_cons] at h
    by_cases hp : p.1 = k
    · simp [hp] at h
    · simp only [if_neg hp] at h
      simp [hp, ih h]

theorem dget_of_mem_nodup {α : Type} (d : List (String × α)) (k : String)
    (v : α) (hmem : (k, v) ∈ d) (h : (dkeys d).Nodup) : dget d k = some v := by
  induction d with
  | nil => simp at hmem
  | cons p rest ih =>
    simp only [dkeys_cons, List.nodup_cons] at h
    rcases List.mem_cons.1 hmem with he | hm
    · subst he
      simp
    · have hk : p.1 ≠ k := by
        intro he
        apply h.1
        subst he
        exact List.mem_map_of_mem (fun q => q.1) hm
      simp [hk, ih hm h.2]

theorem decodeNums_encode (ids : List Int) :
    decodeNums (ids.map Json.num) = some ids := by
  induction ids with
  | nil => rfl
  | cons n rest ih => simp [decodeNums, ih]

theorem decodeFields_encode (m : Mapping) :
    decodeFields (m.map (fun p => (p.1, encodeMsgIds p.2))) = some m := by
  induction m with
  | nil => rfl
  | cons p rest ih =>
    have h1 : decodeMsgIds (encodeMsgIds p.2) = some p.2 := by
      simp [decodeMsgIds, encodeMsgIds, decodeNums_encode]
    simp [decodeFields, h1, ih]

theorem foldl_dset_eq_append (ps acc : Mapping)
    (h : (dkeys (acc ++ ps)).Nodup) :
    ps.foldl (fun d p => dset d p.1 p.2) acc = acc ++ ps := by
  induction ps generalizing acc with
  | nil => simp
  | cons p rest ih =>
    have hkeys : dkeys (acc ++ p :: rest) = dkeys acc ++ p.1 :: dkeys rest := by
      simp [dkeys]
    rw [hkeys] at h
    rw [List.nodup_append] at h
    have hnotmem : dmem acc p.1 = false := by
      rw [← Bool.not_eq_true, dmem_iff_mem_dkeys]
      intro hm
      exact h.2.2 hm (List.mem_cons_self _ _)
    have hstep : dset acc p.1 p.2 = acc ++ [p] :=
      dset_eq_append_of_not_dmem acc p.1 p.2 hnotmem
    simp only [List.foldl_cons, hstep]
    have hside : (dkeys ((acc ++ [p]) ++ rest)).Nodup := by
      have he : (acc ++ [p]) ++ rest = acc ++ p :: rest := by simp
      rw [he, hkeys, List.nodup_append]
      exact h
    rw [ih (acc ++ [p]) hside]
    simp

theorem dictify_eq_self (m : Mapping) (h : (dkeys m).Nodup) : dictify m = m := by
  have := foldl_dset_eq_append m [] (by simpa using h)
  simpa [dictify] using this

theorem decodeMapping_encodeMapping (m : Mapping) (h : (dkeys m).Nodup) :
    decodeMapping (encodeMapping m) = some m := by
  simp [decodeMapping, encodeMapping, decodeFields_encode, dictify_eq_self m h]

theorem gtfFold_no_folders (path : String) (items : List TEntry)
    (dirs : List String) (res : Snapshot)
    (h : ∀ j ∈ items, j.type ≠ "folder") :
    items.foldl
      (fun acc item =>
        if item.type = "folder" then
          (acc.1 ++ [rstripSlashes path ++ "/" ++ item.name], acc.2)
        else (acc.1, registerItem acc.2 item))
      (dirs, res)
    = (dirs, items.foldl registerItem res) := by
  induction items generalizing dirs res with
  | nil => rfl
  | cons j rest ih =>
    have hj : j.type ≠ "folder" := h j (List.mem_cons_self _ _)
    have hrest : ∀ q ∈ rest, q.type ≠ "folder" :=
      fun q hq => h q (List.mem_cons_of_mem _ hq)
    simp only [List.foldl_cons, if_neg hj]
    exact ih _ _ hrest

theorem gtfStep_no_folders (path : String) (items : List TEntry)
    (res : Snapshot) (h : ∀ j ∈ items, j.type ≠ "folder") :
    gtfStep path items res = ([], items.foldl registerItem res) :=
  gtfFold_no_folders path items [] res h

theorem foldl_register_dget_notin (items : List TEntry) (res : Snapshot)
    (k : String) (h : k ∉ items.map TEntry.id) :
    dget (items.foldl registerItem res) k = dget res k := by
  induction items generalizing res with
  | nil => rfl
  | cons j rest ih =>
    simp only [List.map_cons, List.mem_cons] at h
    push_neg at h
    simp only [List.foldl_cons]
    rw [ih _ h.2]
    simp only [registerItem]
    by_cases hid : j.id ≠ ""
    · rw [if_pos hid, dget_dset_ne _ _ _ _ (Ne.symm h.1)]
    · rw [if_neg hid]

theorem foldl_register_dget (items : List TEntry) (res : Snapshot)
    (it : TEntry) (hmem : it ∈ items) (hid : it.id ≠ "")
    (hnd : (items.map TEntry.id).Nodup) :
    dget (items.foldl registerItem res) it.id
      = some { name := it.name, size := it.size } := by
  induction items generalizing res with
  | nil => simp at hmem
  | cons j rest ih =>
    simp only [List.map_cons, List.nodup_cons] at hnd
    simp only [List.foldl_cons]
    rcases List.mem_cons.1 hmem with he | hm
    · subst he
      rw [foldl_register_dget_notin rest _ it.id hnd.1]
      simp only [registerItem, if_pos hid]
      exact dget_dset_self _ _ _
    · exact ih _ hm hnd.2

theorem takeWhile_append_all (p : Char → Bool) (l1 l2 : List Char)
    (h : ∀ c ∈ l1, p c = true) :
    (l1 ++ l2).takeWhile p = l1 ++ l2.takeWhile p := by
  induction l1 with
  | nil => simp
  | cons c rest ih =>
    have hc : p c = true := h c (List.mem_cons_self _ _)
    have hrest : ∀ x ∈ rest, p x = true :=
      fun x hx => h x (List.mem_cons_of_mem _ hx)
    simp [List.takeWhile, hc, ih hrest]

theorem dropWhile_append_all (p : Char → Bool) (l1 l2 : List Char)
    (h : ∀ c ∈ l1, p c = true) :
    (l1 ++ l2).dropWhile p = l2.dropWhile p := by
  induction l1 with
  | nil => simp
  | cons c rest ih =>
    have hc : p c = true := h c (List.mem_cons_self _ _)
    have hrest : ∀ x ∈ rest, p x = true :=
      fun x hx => h x (List.mem_cons_of_mem _ hx)
    simp [List.dropWhile, hc, ih hrest]

theorem chunk_name_data (b : String) (ds : List Char) :
    (b ++ "." ++ String.mk ds).data = b.data ++ '.' :: ds := by
  simp [String.data_append]

theorem chunk_reverse_takeWhile (b : String) (ds : List Char)
    (hdig : ∀ c ∈ ds, c.isDigit = true) :
    (b ++ "." ++ String.mk ds).data.reverse.takeWhile Char.isDigit
      = ds.reverse := by
  rw [chunk_name_data, List.reverse_append,
    show ('.' :: ds).reverse = ds.reverse ++ ['.'] from by simp,
    List.append_assoc,
    takeWhile_append_all _ _ _ (fun c hc => hdig c (List.mem_reverse.1 hc))]
  simp [List.takeWhile]

theorem chunk_reverse_dropWhile (b : String) (ds : List Char)
    (hdig : ∀ c ∈ ds, c.isDigit = true) :
    (b ++ "." ++ String.mk ds).data.reverse.dropWhile Char.isDigit
      = '.' :: b.data.reverse := by
  rw [chunk_name_data, List.reverse_append,
    show ('.' :: ds).reverse = ds.reverse ++ ['.'] from by simp,
    List.append_assoc,
    dropWhile_append_all _ _ _ (fun c hc => hdig c (List.mem_reverse.1 hc))]
  simp [List.dropWhile]

/-- C1 (code_bug exhibit).  Scenario of the claim: threshold 3, the
snapshot [A to x.mp4] is followed by empty snapshots, A absent from
cycle 1 on.  The claim (and the spec scenario) says A is confirmed and
handed to cleanup exactly on cycle 3; the code confirms it on cycle 2:
the disappeared-id block creates the pending record with count 1 and
the pending-check loop of the very same cycle increments it again, so
the counter reaches the threshold one poll early. -/
theorem c1_confirmed_on_second_absent_cycle :
    (cycleOutputs 3
        { prev_files := [("A", { name := "x.mp4", size := 100 })],
          pending := [], disk := [("A", [11, 12])] }
        [ { curr_files := [], channel := [], delete_ok := true,
            db_enabled := false, db_mapping := [] },
          { curr_files := [], channel := [], delete_ok := true,
            db_enabled := false, db_mapping := [] },
          { curr_files := [], channel := [], delete_ok := true,
            db_enabled := false, db_mapping := [] } ]).map
      (fun r => (r.confirmed, r.to_delete))
    = [([], []), (["A"], [11, 12]), ([], [])] := by decide

/-- C4 (counterexample).  get_teldrive_files performs no pseudo-name
filtering: a TelDrive listing whose root contains a file named by 32
lowercase hex characters yields a snapshot containing that entry,
contradicting the claim that no returned snapshot contains a
pseudo-name entry. -/
theorem c4_snapshot_contains_pseudo_name :
    dget (get_teldrive_files
        (fun p => if p = "/" then
            [{ id := "f1", name := "d41d8cd98f00b204e9800998ecf8427e",
               size := 5, type := "file" }]
          else []) 2) "f1"
      = some { name := "d41d8cd98f00b204e9800998ecf8427e", size := 5 } ∧
    _is_md5_name "d41d8cd98f00b204e9800998ecf8427e" = true := by decide

/-- C4 (amended).  The snapshot reader applies no name-based filter at
all: for a root listing of non-folder items with distinct ids, every
item with a nonempty id — pseudo-name or not — appears in the returned
snapshot with its name and size unchanged.  (Pseudo-name entries are
instead skipped downstream, e.g. before entering the pending-deletion
queue.) -/
theorem c4_reader_does_not_filter (items : List TEntry) (it : TEntry)
    (hnof : ∀ j ∈ items, j.type ≠ "folder")
    (hnd : (items.map TEntry.id).Nodup)
    (hmem : it ∈ items) (hid : it.id ≠ "") :
    dget (get_teldrive_files (fun p => if p = "/" then items else []) 2) it.id
      = some { name := it.name, size := it.size } := by
  have e1 : get_teldrive_files (fun p => if p = "/" then items else []) 2
      = gtfGo (fun p => if p = "/" then items else []) 1
          ((gtfStep "/" items []).1.reverse ++ []) (gtfStep "/" items []).2 :=
    rfl
  have e2 : get_teldrive_files (fun p => if p = "/" then items else []) 2
      = items.foldl registerItem [] := by
    rw [e1, gtfStep_no_folders "/" items [] hnof]
    rfl
  rw [e2]
  exact foldl_register_dget items [] it hmem hid hnd

/-- C4 (amended) witness: a pseudo-name root item is returned
unchanged. -/
theorem c4_reader_does_not_filter_witness :
    dget (get_teldrive_files
        (fun p => if p = "/" then
            [{ id := "f2", name := "0123456789abcdef0123456789abcdef",
               size := 7, type := "file" }]
          else []) 2) "f2"
      = some { name := "0123456789abcdef0123456789abcdef", size := 7 } :=
  c4_reader_does_not_filter
    [{ id := "f2", name := "0123456789abcdef0123456789abcdef",
       size := 7, type := "file" }]
    { id := "f2", name := "0123456789abcdef0123456789abcdef",
      size := 7, type := "file" }
    (by decide) (by decide) (by decide) (by decide)

/-- C6.  The mapping loader returns the empty mapping both when the
persisted file is absent and when its contents cannot be parsed; being
a total function, it raises nothing in those cases (the Python except
clause swallows the parse error). -/
theorem c6_load_mapping_falls_back_to_empty :
    _load_mapping FileState.absent = ([] : Mapping) ∧
    _load_mapping FileState.unparseable = ([] : Mapping) :=
  ⟨rfl, rfl⟩

/-- C7.  Saving any mapping (any finite dict: distinct keys) and
loading it back yields the original mapping. -/
theorem c7_save_load_round_trip (m : Mapping) (h : (dkeys m).Nodup) :
    _load_mapping (_save_mapping m) = m := by
  simp [_load_mapping, _save_mapping, decodeMapping_encodeMapping m h]

/-- C7 witness: a concrete two-entry mapping (one empty id list)
round-trips. -/
theorem c7_save_load_round_trip_witness :
    (dkeys [("a", [1, 2]), ("b", ([] : List Int))]).Nodup ∧
    _load_mapping (_save_mapping [("a", [1, 2]), ("b", [])])
      = [("a", [1, 2]), ("b", [])] :=
  ⟨by decide, c7_save_load_round_trip [("a", [1, 2]), ("b", [])] (by decide)⟩

/-- C8.  For all snapshots, the appeared id set (new_ids, current minus
previous) and the disappeared id set (previous minus current) are
disjoint: filtering the appeared ids by membership in the disappeared
ids leaves nothing. -/
theorem c8_appeared_disjoint_disappeared (prev curr : Snapshot) :
    (new_ids prev curr).filter
      (fun x => decide (x ∈ disappeared_ids prev curr)) = [] := by
  rw [List.filter_eq_nil_iff]
  intro a ha
  simp only [new_ids, List.mem_filter, Bool.not_eq_true'] at ha
  simp only [decide_eq_true_eq]
  intro hc
  simp only [disappeared_ids, List.mem_filter] at hc
  rw [← dmem_iff_mem_dkeys] at hc
  rw [hc.1] at ha
  simp at ha

theorem processDisappearedId_pending_nodup (prev curr : Snapshot)
    (nids : List String) (st : MidState) (fid : String)
    (h : (dkeys st.pending).Nodup) :
    (dkeys (processDisappearedId prev curr nids st fid).pending).Nodup := by
  simp only [processDisappearedId]
  split
  · exact h
  · split
    · split
      · exact h
      · exact nodup_dkeys_dset _ _ _ h
    · exact h

theorem disappearedStage_pending_nodup (prev curr : Snapshot) (st : MidState)
    (h : (dkeys st.pending).Nodup) :
    (dkeys (disappearedStage prev curr st).pending).Nodup := by
  unfold disappearedStage
  generalize disappeared_ids prev curr = fids
  induction fids generalizing st with
  | nil => exact h
  | cons fid rest ih =>
    simp only [List.foldl_cons]
    exact ih _ (processDisappearedId_pending_nodup _ _ _ _ _ h)

theorem processDisappearedId_mapping_nodup (prev curr : Snapshot)
    (nids : List String) (st : MidState) (fid : String)
    (h : (dkeys st.mapping).Nodup) :
    (dkeys (processDisappearedId prev curr nids st fid).mapping).Nodup := by
  simp only [processDisappearedId]
  split
  · split
    · exact nodup_dkeys_dset _ _ _ (nodup_dkeys_dpop _ _ h)
    · exact nodup_dkeys_dpop _ _ h
  · split
    · split
      · exact h
      · exact h
    · exact h

theorem disappearedStage_mapping_nodup (prev curr : Snapshot) (st : MidState)
    (h : (dkeys st.mapping).Nodup) :
    (dkeys (disappearedStage prev curr st).mapping).Nodup := by
  unfold disappearedStage
  generalize disappeared_ids prev curr = fids
  induction fids generalizing st with
  | nil => exact h
  | cons fid rest ih =>
    simp only [List.foldl_cons]
    exact ih _ (processDisappearedId_mapping_nodup _ _ _ _ _ h)

theorem checkOnePending_mapping_nodup (curr : Snapshot) (threshold : Nat)
    (cs : CheckState) (item : String × PendInfo)
    (h : (dkeys cs.mapping).Nodup) :
    (dkeys (checkOnePending curr threshold cs item).mapping).Nodup := by
  simp only [checkOnePending]
  split
  · split
    · exact nodup_dkeys_dpop _ _ (nodup_dkeys_dset _ _ _ h)
    · exact nodup_dkeys_dpop _ _ h
  · split
    · exact h
    · exact h

theorem countFold_mapping_nodup (curr : Snapshot) (threshold : Nat)
    (items : List (String × PendInfo)) :
    ∀ (cs : CheckState), (dkeys cs.mapping).Nodup →
    (dkeys (items.foldl (checkOnePending curr threshold) cs).mapping).Nodup := by
  induction items with
  | nil =>
    intro cs h
    exact h
  | cons item rest ih =>
    intro cs h
    simp only [List.foldl_cons]
    exact ih _ (checkOnePending_mapping_nodup _ _ _ _ h)

theorem countStage_mapping_nodup (curr : Snapshot) (threshold : Nat)
    (mid : MidState) (h : (dkeys mid.mapping).Nodup) :
    (dkeys (countStage curr threshold mid).mapping).Nodup :=
  countFold_mapping_nodup curr threshold mid.pending
    { mapping := mid.mapping, pending := mid.pending, disk := mid.disk,
      confirmed := [] } h

theorem cycleCheck_mapping_nodup (threshold : Nat) (st : SyncState)
    (curr : Snapshot) (h : (dkeys st.disk).Nodup) :
    (dkeys (cycleCheck threshold st curr).mapping).Nodup :=
  countStage_mapping_nodup curr threshold _
    (disappearedStage_mapping_nodup st.prev_files curr
      { mapping := st.disk, pending := st.pending, disk := st.disk } h)

theorem checkOnePending_confirmed_inv (curr : Snapshot) (threshold : Nat)
    (cs : CheckState) (item : String × PendInfo)
    (hdisj : item.1 ∉ cs.confirmed)
    (hinv : ∀ fid ∈ cs.confirmed, ∃ info,
      dget cs.pending fid = some info ∧ threshold ≤ info.count) :
    (∀ fid ∈ (checkOnePending curr threshold cs item).confirmed, ∃ info,
      dget (checkOnePending curr threshold cs item).pending fid = some info ∧
        threshold ≤ info.count) ∧
    ((checkOnePending curr threshold cs item).confirmed = cs.confirmed ∨
      (checkOnePending curr threshold cs item).confirmed
        = cs.confirmed ++ [item.1]) := by
  simp only [checkOnePending]
  by_cases hcancel : item.2.name ∈ snapshotNames curr
  · rw [if_pos hcancel]
    refine ⟨?_, Or.inl rfl⟩
    intro fid hfid
    have hne : item.1 ≠ fid := fun he => hdisj (he ▸ hfid)
    obtain ⟨info, hget, hth⟩ := hinv fid hfid
    exact ⟨info, by rw [dget_dpop_ne _ _ _ hne]; exact hget, hth⟩
  · rw [if_neg hcancel]
    by_cases hth : threshold ≤ item.2.count + 1
    · rw [if_pos hth]
      refine ⟨?_, Or.inr rfl⟩
      intro fid hfid
      rcases List.mem_append.1 hfid with hold | hnew
      · have hne : item.1 ≠ fid := fun he => hdisj (he ▸ hold)
        obtain ⟨info, hget, hth2⟩ := hinv fid hold
        exact ⟨info, by rw [dget_dset_ne _ _ _ _ hne]; exact hget, hth2⟩
      · rw [List.mem_singleton] at hnew
        subst hnew
        exact ⟨_, dget_dset_self _ _ _, hth⟩
    · rw [if_neg hth]
      refine ⟨?_, Or.inl rfl⟩
      intro fid hfid
      have hne : item.1 ≠ fid := fun he => hdisj (he ▸ hfid)
      obtain ⟨info, hget, hth2⟩ := hinv fid hfid
      exact ⟨info, by rw [dget_dset_ne _ _ _ _ hne]; exact hget, hth2⟩

theorem countFold_confirmed_ge (curr : Snapshot) (threshold : Nat)
    (items : List (String × PendInfo)) :
    ∀ (cs : CheckState), (dkeys items).Nodup →
    (∀ p ∈ items, p.1 ∉ cs.confirmed) →
    (∀ fid ∈ cs.confirmed, ∃ info,
      dget cs.pending fid = some info ∧ threshold ≤ info.count) →
    ∀ fid ∈ (items.foldl (checkOnePending curr threshold) cs).confirmed,
      ∃ info, dget (items.foldl (checkOnePending curr threshold) cs).pending fid
        = some info ∧ threshold ≤ info.count := by
  induction items with
  | nil =>
    intro cs hnd hdisj hinv
    simpa using hinv
  | cons item rest ih =>
    intro cs hnd hdisj hinv
    simp only [dkeys_cons, List.nodup_cons] at hnd
    have hitem : item.1 ∉ cs.confirmed := hdisj item (List.mem_cons_self _ _)
    obtain ⟨hinv', hconf⟩ :=
      checkOnePending_confirmed_inv curr threshold cs item hitem hinv
    simp only [List.foldl_cons]
    apply ih
    · exact hnd.2
    · intro p hp
      have hne : p.1 ≠ item.1 := by
        intro he
        exact hnd.1 (he ▸ List.mem_map_of_mem (fun q => q.1) hp)
      rcases hconf with he | he
      · rw [he]
        exact hdisj p (List.mem_cons_of_mem _ hp)
      · rw [he]
        intro hmem
        rcases List.mem_append.1 hmem with h1 | h2
        · exact hdisj p (List.mem_cons_of_mem _ hp) h1
        · rw [List.mem_singleton] at h2
          exact hne h2
    · exact hinv'

theorem countStage_confirmed_ge (curr : Snapshot) (threshold : Nat)
    (mid : MidState) (hnd : (dkeys mid.pending).Nodup) :
    ∀ fid ∈ (countStage curr threshold mid).confirmed, ∃ info,
      dget (countStage curr threshold mid).pending fid = some info ∧
        threshold ≤ info.count :=
  countFold_confirmed_ge curr threshold mid.pending
    { mapping := mid.mapping, pending := mid.pending, disk := mid.disk,
      confirmed := [] }
    hnd (fun p _ => List.not_mem_nil _)
    (fun fid hf => absurd hf (List.not_mem_nil _))

theorem popConfirmed_mapping (confirmed : List String) (acc : PopAcc) :
    (popConfirmed confirmed acc).mapping = confirmed.foldl dpop acc.mapping := by
  induction confirmed generalizing acc with
  | nil => rfl
  | cons fid rest ih =>
    simp only [popConfirmed, List.foldl_cons]
    exact ih _

theorem foldl_dpop_dget_notmem (confirmed : List String) (m : Mapping)
    (fid : String) (h : fid ∉ confirmed) :
    dget (confirmed.foldl dpop m) fid = dget m fid := by
  induction confirmed generalizing m with
  | nil => rfl
  | cons g rest ih =>
    simp only [List.mem_cons] at h
    push_neg at h
    simp only [List.foldl_cons]
    rw [ih _ h.2, dget_dpop_ne _ _ _ (Ne.symm h.1)]

theorem foldl_dpop_preserves_false (l : List String) (m : Mapping)
    (fid : String) (h : dmem m fid = false) :
    dmem (l.foldl dpop m) fid = false := by
  induction l generalizing m with
  | nil => exact h
  | cons g rest ih =>
    simp only [List.foldl_cons]
    exact ih _ (dmem_dpop_of_not_dmem m g fid h)

theorem foldl_dpop_dmem_false (confirmed : List String) (m : Mapping)
    (fid : String) (hmem : fid ∈ confirmed) (hnd : (dkeys m).Nodup) :
    dmem (confirmed.foldl dpop m) fid = false := by
  induction confirmed generalizing m with
  | nil => simp at hmem
  | cons g rest ih =>
    simp only [List.foldl_cons]
    rcases List.mem_cons.1 hmem with he | hm
    · subst he
      exact foldl_dpop_preserves_false rest _ fid (dmem_dpop_self m fid hnd)
    · exact ih _ hm (nodup_dkeys_dpop m g hnd)

theorem cleanup_preserves_unconfirmed (channel : List Msg) (delete_ok : Bool)
    (chk : CheckState) (fid : String) (h : fid ∉ chk.confirmed) :
    dget (cleanupStage channel delete_ok chk).mapping fid
      = dget chk.mapping fid := by
  simp only [cleanupStage]
  by_cases hc : chk.confirmed.isEmpty
  · rw [if_pos hc]
  · rw [if_neg hc]
    simp only [popConfirmed_mapping]
    exact foldl_dpop_dget_notmem _ _ _ h

/-- C9 (counterexample).  The name x.0 ends in a dot followed by the
digit 0, which is not (the decimal digits of) a positive integer, yet
the classifier recognises it as a chunk — so chunk-hood is not
equivalent to having a dot-positive-integer suffix.  (A digit string
represents a positive integer exactly when it contains a nonzero digit;
the strict no-leading-zero reading is a special case.) -/
theorem c9_chunk_accepts_zero_suffix :
    _is_chunk_file "x.0" = true ∧
    ¬ ∃ (b : String) (ds : List Char),
        "x.0" = b ++ "." ++ String.mk ds ∧ ds ≠ [] ∧
        (∀ c ∈ ds, c.isDigit = true) ∧ (∃ c ∈ ds, c ≠ '0') := by
  constructor
  · decide
  · rintro ⟨b, ds, heq, hne, hdig, c, hc, hcne⟩
    have hdata : ['x', '.', '0'] = b.data ++ '.' :: ds := by
      have h2 := congrArg String.data heq
      rw [chunk_name_data] at h2
      exact h2
    cases hbd : b.data with
    | nil =>
      rw [hbd, List.nil_append] at hdata
      injection hdata with h1 h2
      exact absurd h1 (by decide)
    | cons c1 btl =>
      rw [hbd, List.cons_append] at hdata
      injection hdata with h1 h2
      cases btl with
      | nil =>
        rw [List.nil_append] at h2
        injection h2 with h3 h4
        rw [← h4] at hc
        rw [List.mem_singleton] at hc
        exact hcne hc
      | cons c2 rtl =>
        rw [List.cons_append] at h2
        injection h2 with h3 h4
        cases rtl with
        | nil =>
          rw [List.nil_append] at h4
          injection h4 with h5 h6
          exact absurd h5 (by decide)
        | cons c3 rtl2 =>
          rw [List.cons_append] at h4
          injection h4 with h5 h6
          simp at h6

/-- C9 (amended).  The classifier recognises a name as a chunk exactly
when it ends in a dot followed by one or more decimal digits (the digit
string may be 0 or carry leading zeros), and for such a name the base
name is what precedes that unique dot-digits suffix: building any name
as base, dot, digits gives a chunk whose base name is base, and
conversely every chunk name decomposes that way. -/
theorem c9_chunk_iff_dot_digits_suffix (b : String) (ds : List Char)
    (hne : ds ≠ []) (hdig : ∀ c ∈ ds, c.isDigit = true) :
    _is_chunk_file (b ++ "." ++ String.mk ds) = true ∧
    _get_base_name (b ++ "." ++ String.mk ds) = b ∧
    ∀ name : String, _is_chunk_file name = true →
      ∃ (b' : String) (ds' : List Char),
        name = b' ++ "." ++ String.mk ds' ∧ ds' ≠ [] ∧
        ∀ c ∈ ds', c.isDigit = true := by
  have h1 : _is_chunk_file (b ++ "." ++ String.mk ds) = true := by
    unfold _is_chunk_file
    rw [chunk_reverse_takeWhile b ds hdig, chunk_reverse_dropWhile b ds hdig]
    cases hrev : ds.reverse with
    | nil => exact absurd (by simpa using congrArg List.reverse hrev) hne
    | cons a t => simp
  refine ⟨h1, ?_, ?_⟩
  · unfold _get_base_name
    rw [if_pos h1, chunk_reverse_dropWhile b ds hdig]
    exact String.ext (by simp)
  · intro name hchunk
    unfold _is_chunk_file at hchunk
    rw [Bool.and_eq_true] at hchunk
    obtain ⟨hne', hdot⟩ := hchunk
    have htw : name.data.reverse.takeWhile Char.isDigit ≠ [] := by
      intro hh
      rw [hh] at hne'
      simp at hne'
    have hhd : (name.data.reverse.dropWhile Char.isDigit).head? = some '.' :=
      beq_iff_eq.mp hdot
    obtain ⟨t, hdrop⟩ :
        ∃ t, name.data.reverse.dropWhile Char.isDigit = '.' :: t := by
      cases hd : name.data.reverse.dropWhile Char.isDigit with
      | nil =>
        rw [hd] at hhd
        simp at hhd
      | cons a t =>
        rw [hd] at hhd
        simp at hhd
        exact ⟨t, by rw [hhd]⟩
    refine ⟨String.mk t.reverse,
      (name.data.reverse.takeWhile Char.isDigit).reverse, ?_, ?_, ?_⟩
    · apply String.ext
      have hsplit : name.data.reverse
          = name.data.reverse.takeWhile Char.isDigit ++ ('.' :: t) := by
        conv_lhs => rw [← List.takeWhile_append_dropWhile
          (p := Char.isDigit) (l := name.data.reverse)]
        rw [hdrop]
      have hrev := congrArg List.reverse hsplit
      rw [List.reverse_reverse] at hrev
      rw [chunk_name_data, hrev]
      simp
      rw [takeWhile_append_all _ _ _ (fun c hc => List.mem_takeWhile_imp hc)]
      simp [List.takeWhile]
    · intro hh
      exact htw (by simpa using congrArg List.reverse hh)
    · intro ch hch
      exact List.mem_takeWhile_imp (List.mem_reverse.1 hch)

/-- C9 (amended) witness: movie.mp4.1 is a chunk with base name
movie.mp4. -/
theorem c9_chunk_iff_dot_digits_suffix_witness :
    _is_chunk_file "movie.mp4.1" = true ∧
    _get_base_name "movie.mp4.1" = "movie.mp4" := by
  have he : "movie.mp4" ++ "." ++ String.mk ['1'] = "movie.mp4.1" := by decide
  have h := c9_chunk_iff_dot_digits_suffix "movie.mp4" ['1']
    (by decide) (by decide)
  exact ⟨he ▸ h.1, he ▸ h.2.1⟩

/-- C3 (counterexample).  Previous snapshot [A with the empty name],
current snapshot [B with the empty name], local mapping A to [5] and
B to [7].  A disappeared and its previous name reappears under the
newly-appeared id B, so the claim requires A's entry to migrate to B
(B to [5]) with A never pending.  The code instead: the truthiness
guard on the name sends A into the pending-deletion queue, the cancel
path then drops A's entry without re-inserting it (B already mapped),
and the cycle ends with B still holding [7] and A's ids lost. -/
theorem c3_counterexample_empty_name :
    "A" ∈ disappeared_ids [("A", { name := "", size := 1 })]
        [("B", { name := "", size := 1 })] ∧
    dget (new_name_to_id [("B", { name := "", size := 1 })]
        (new_ids [("A", { name := "", size := 1 })]
          [("B", { name := "", size := 1 })])) "" = some "B" ∧
    dmem (disappearedStage [("A", { name := "", size := 1 })]
        [("B", { name := "", size := 1 })]
        { mapping := [("A", [5]), ("B", [7])], pending := [],
          disk := [("A", [5]), ("B", [7])] }).pending "A" = true ∧
    (sync_deletions_cycle 3
        { prev_files := [("A", { name := "", size := 1 })], pending := [],
          disk := [("A", [5]), ("B", [7])] }
        { curr_files := [("B", { name := "", size := 1 })], channel := [],
          delete_ok := true, db_enabled := false,
          db_mapping := [] }).state.disk = [("B", [7])] := by decide

/-- C3 (amended).  For a disappeared id whose previous name is nonempty
and appears in the current snapshot under a newly-appeared id, the
per-id step of the disappeared block migrates the mapping entry in
place: the entry is popped from the old id, the very same message-id
list is inserted under the new id, the result is persisted, and no
pending-deletion record is created for the id. -/
theorem c3_nonempty_reappeared_name_migrates (prev curr : Snapshot)
    (st : MidState) (fid : String) (finfo : FInfo) (new_fid : String)
    (hprev : dget prev fid = some finfo)
    (hne : finfo.name ≠ "")
    (hcur : finfo.name ∈ snapshotNames curr)
    (hn2i : dget (new_name_to_id curr (new_ids prev curr)) finfo.name
      = some new_fid) :
    processDisappearedId prev curr (new_ids prev curr) st fid
      = { mapping := dset (dpop st.mapping fid) new_fid
            ((dget st.mapping fid).getD []),
          pending := st.pending,
          disk := dset (dpop st.mapping fid) new_fid
            ((dget st.mapping fid).getD []) } := by
  simp only [processDisappearedId, hprev, Option.map_some', Option.getD_some]
  rw [if_pos (And.intro hne hcur)]
  simp only [hn2i]

/-- C3 (amended) witness: the spec scenario, A with x.mp4 reappearing
as B, migrates A's [5] to B in the step. -/
theorem c3_nonempty_reappeared_name_migrates_witness :
    processDisappearedId [("A", { name := "x.mp4", size := 1 })]
        [("B", { name := "x.mp4", size := 1 })]
        (new_ids [("A", { name := "x.mp4", size := 1 })]
          [("B", { name := "x.mp4", size := 1 })])
        { mapping := [("A", [5])], pending := [], disk := [("A", [5])] } "A"
      = { mapping := [("B", [5])], pending := [], disk := [("B", [5])] } := by
  rw [c3_nonempty_reappeared_name_migrates _ _ _ _
    { name := "x.mp4", size := 1 } "B" (by decide) (by decide) (by decide)
    (by decide)]
  decide

/-- C10 (counterexample).  Previous snapshot [A and C, both the empty
name], current snapshot [C only], mapping A to [5] and C unmapped.  A's
previous name is present in the current snapshot only under the
non-newly-appeared id C, so the claim requires A's ids to be silently
lost without any pending record.  The code instead: A's empty name
fails the truthiness guard, A enters the pending-deletion queue, and
the cancel path re-inserts A's message ids under C — the cycle ends
with C mapped to [5]. -/
theorem c10_counterexample_empty_name :
    "A" ∈ disappeared_ids
        [("A", { name := "", size := 1 }), ("C", { name := "", size := 1 })]
        [("C", { name := "", size := 1 })] ∧
    "" ∈ snapshotNames [("C", { name := "", size := 1 })] ∧
    dget (new_name_to_id [("C", { name := "", size := 1 })]
        (new_ids
          [("A", { name := "", size := 1 }), ("C", { name := "", size := 1 })]
          [("C", { name := "", size := 1 })])) "" = none ∧
    dmem (disappearedStage
        [("A", { name := "", size := 1 }), ("C", { name := "", size := 1 })]
        [("C", { name := "", size := 1 })]
        { mapping := [("A", [5])], pending := [],
          disk := [("A", [5])] }).pending "A" = true ∧
    (sync_deletions_cycle 3
        { prev_files := [("A", { name := "", size := 1 }),
            ("C", { name := "", size := 1 })],
          pending := [], disk := [("A", [5])] }
        { curr_files := [("C", { name := "", size := 1 })], channel := [],
          delete_ok := true, db_enabled := false,
          db_mapping := [] }).state.disk = [("C", [5])] := by decide

/-- C10 (amended).  For a disappeared id whose previous name is
nonempty and present in the current snapshot, but not under any
newly-appeared id, the per-id step of the disappeared block pops the
mapping entry and discards its message ids: the resulting mapping is
exactly the old one minus that entry, it is persisted, and no
pending-deletion record is created. -/
theorem c10_reappeared_under_old_id_drops_entry (prev curr : Snapshot)
    (st : MidState) (fid : String) (finfo : FInfo)
    (hprev : dget prev fid = some finfo)
    (hne : finfo.name ≠ "")
    (hcur : finfo.name ∈ snapshotNames curr)
    (hn2i : dget (new_name_to_id curr (new_ids prev curr)) finfo.name
      = none) :
    processDisappearedId prev curr (new_ids prev curr) st fid
      = { mapping := dpop st.mapping fid,
          pending := st.pending,
          disk := dpop st.mapping fid } := by
  simp only [processDisappearedId, hprev, Option.map_some', Option.getD_some]
  rw [if_pos (And.intro hne hcur)]
  simp only [hn2i]

/-- C10 (amended) witness: A's name y.mp4 also borne by the old id C;
the step drops A's entry, touching nothing else. -/
theorem c10_reappeared_under_old_id_drops_entry_witness :
    processDisappearedId
        [("A", { name := "y.mp4", size := 1 }),
          ("C", { name := "y.mp4", size := 1 })]
        [("C", { name := "y.mp4", size := 1 })]
        (new_ids
          [("A", { name := "y.mp4", size := 1 }),
            ("C", { name := "y.mp4", size := 1 })]
          [("C", { name := "y.mp4", size := 1 })])
        { mapping := [("A", [5]), ("C", [7])], pending := [],
          disk := [("A", [5]), ("C", [7])] } "A"
      = { mapping := [("C", [7])], pending := [], disk := [("C", [7])] } := by
  rw [c10_reappeared_under_old_id_drops_entry _ _ _ _
    { name := "y.mp4", size := 1 } (by decide) (by decide) (by decide)
    (by decide)]
  decide

/-- C2.  In any cycle, a pending-deletion record whose counter is still
strictly below the threshold at the end of the counting step is not in
the confirmed set handed to the cleanup block, and the cleanup block
leaves its mapping entry untouched (so none of its message ids is
collected for deletion through its record and its entry is not
purged). -/
theorem c2_below_threshold_not_handed_to_cleanup (threshold : Nat)
    (st : SyncState) (curr : Snapshot) (channel : List Msg)
    (delete_ok : Bool) (fid : String) (info : PendInfo)
    (hnd : (dkeys st.pending).Nodup)
    (hget : dget (cycleCheck threshold st curr).pending fid = some info)
    (hlt : info.count < threshold) :
    fid ∉ (cycleCheck threshold st curr).confirmed ∧
    dget (cleanupStage channel delete_ok
        (cycleCheck threshold st curr)).mapping fid
      = dget (cycleCheck threshold st curr).mapping fid := by
  have hmidnd := disappearedStage_pending_nodup st.prev_files curr
    { mapping := st.disk, pending := st.pending, disk := st.disk } hnd
  have hkey := countStage_confirmed_ge curr threshold
    (disappearedStage st.prev_files curr
      { mapping := st.disk, pending := st.pending, disk := st.disk }) hmidnd
  have hnotin : fid ∉ (cycleCheck threshold st curr).confirmed := by
    intro hfid
    obtain ⟨info', hget', hth⟩ := hkey fid hfid
    have hget2 : dget (cycleCheck threshold st curr).pending fid = some info' :=
      hget'
    rw [hget] at hget2
    injection hget2 with he
    subst he
    omega
  exact ⟨hnotin,
    cleanup_preserves_unconfirmed channel delete_ok _ fid hnotin⟩

/-- C2 witness: threshold 3, a queued record at count 1 reaches count 2
in the counting step, stays unconfirmed, and its mapping entry survives
the cleanup block. -/
theorem c2_below_threshold_not_handed_to_cleanup_witness :
    "A" ∉ (cycleCheck 3
        { prev_files := [],
          pending := [("A", { name := "x", msg_ids := [1], count := 1 })],
          disk := [("A", [1])] } []).confirmed ∧
    dget (cleanupStage [] true (cycleCheck 3
        { prev_files := [],
          pending := [("A", { name := "x", msg_ids := [1], count := 1 })],
          disk := [("A", [1])] } [])).mapping "A"
      = dget (cycleCheck 3
        { prev_files := [],
          pending := [("A", { name := "x", msg_ids := [1], count := 1 })],
          disk := [("A", [1])] } []).mapping "A" :=
  c2_below_threshold_not_handed_to_cleanup 3
    { prev_files := [],
      pending := [("A", { name := "x", msg_ids := [1], count := 1 })],
      disk := [("A", [1])] }
    [] [] true "A" { name := "x", msg_ids := [1], count := 2 }
    (by decide) (by decide) (by decide)

/-- C5.  A failing bulk delete changes nothing: the whole cycle result
is the same whether client.delete_messages succeeds or raises (the
except clause only logs), and the confirmed fids' mapping entries are
purged and the purged mapping is the one saved to disk by the cleanup
block even in the failing case; the cycle function is total, so the
loop proceeds to the next cycle. -/
theorem c5_delete_failure_only_logged (threshold : Nat) (st : SyncState)
    (curr : Snapshot) (channel : List Msg) (db : Bool) (dbm : Mapping)
    (fid : String) (hnd : (dkeys st.disk).Nodup)
    (hfid : fid ∈ (cycleCheck threshold st curr).confirmed) :
    sync_deletions_cycle threshold st
        { curr_files := curr, channel := channel, delete_ok := true,
          db_enabled := db, db_mapping := dbm }
      = sync_deletions_cycle threshold st
        { curr_files := curr, channel := channel, delete_ok := false,
          db_enabled := db, db_mapping := dbm } ∧
    dmem (cleanupStage channel false
        (cycleCheck threshold st curr)).mapping fid = false ∧
    (cleanupStage channel false (cycleCheck threshold st curr)).disk
      = (cleanupStage channel false (cycleCheck threshold st curr)).mapping := by
  have hmapnd := cycleCheck_mapping_nodup threshold st curr hnd
  have hnonempty : (cycleCheck threshold st curr).confirmed.isEmpty = false := by
    cases hcc : (cycleCheck threshold st curr).confirmed with
    | nil =>
      rw [hcc] at hfid
      simp at hfid
    | cons a t => rfl
  refine ⟨rfl, ?_, ?_⟩
  · simp only [cleanupStage, hnonempty, Bool.false_eq_true, if_false,
      popConfirmed_mapping]
    exact foldl_dpop_dmem_false _ _ _ hfid hmapnd
  · simp only [cleanupStage, hnonempty, Bool.false_eq_true, if_false]

/-- C5 witness: threshold 1, record A confirms this cycle; with the
delete call failing the cycle result equals the succeeding one, A's
entry is purged and the purged mapping is saved. -/
theorem c5_delete_failure_only_logged_witness :
    sync_deletions_cycle 1
        { prev_files := [],
          pending := [("A", { name := "z", msg_ids := [9], count := 1 })],
          disk := [("A", [9])] }
        { curr_files := [], channel := [], delete_ok := true,
          db_enabled := false, db_mapping := [] }
      = sync_deletions_cycle 1
        { prev_files := [],
          pending := [("A", { name := "z", msg_ids := [9], count := 1 })],
          disk := [("A", [9])] }
        { curr_files := [], channel := [], delete_ok := false,
          db_enabled := false, db_mapping := [] } ∧
    dmem (cleanupStage [] false (cycleCheck 1
        { prev_files := [],
          pending := [("A", { name := "z", msg_ids := [9], count := 1 })],
          disk := [("A", [9])] } [])).mapping "A" = false ∧
    (cleanupStage [] false (cycleCheck 1
        { prev_files := [],
          pending := [("A", { name := "z", msg_ids := [9], count := 1 })],
          disk := [("A", [9])] } [])).disk
      = (cleanupStage [] false (cycleCheck 1
        { prev_files := [],
          pending := [("A", { name := "z", msg_ids := [9], count := 1 })],
          disk := [("A", [9])] } [])).mapping :=
  c5_delete_failure_only_logged 1
    { prev_files := [],
      pending := [("A", { name := "z", msg_ids := [9], count := 1 })],
      disk := [("A", [9])] }
    [] [] false [] "A" (by decide) (by decide)

end Tg2TelDrive
